import Mathlib

/-!
Shallow embedding of the merchant-hub poll-coordination core.

The definitions below translate, function by function, the coordination,
cursor-tracking, transfer-detection and stream-consumption logic of the
repository (src/lib/redis.ts, src/lib/haf-polling.ts, the wake-up,
heartbeat, consume and ack API routes).  Stateful Redis operations become
explicit state passing over small state structures; JavaScript numbers and
bigints become `Nat` (ids and timestamps are non-negative and never
overflow in the modelled ranges); fallible lookups become `Option`.
Wall-clock timestamps are passed explicitly as a `now : Nat` parameter.

Store primitives that live inside Redis itself (SET NX EX, EXPIRE,
XREADGROUP, XAUTOCLAIM, XACK) are modelled from the coordination-store
contract in the design document; the application-level control flow around
them is translated from the repository source.
-/

namespace MerchantHub

/-! ## JavaScript string helpers

`stripPercent` models `memoFilter.replace(/%/g, '')`; `strIncludes` models
`String.prototype.includes` (substring containment, empty pattern always
matches). -/

def stripPercent (s : String) : String :=
  ⟨s.data.filter (fun ch => ch ≠ '%')⟩

def charsStartsWith : List Char → List Char → Bool
  | [], _ => true
  | _ :: _, [] => false
  | p :: ps, c :: cs => p = c && charsStartsWith ps cs

def charsContainsSub (pat : List Char) : List Char → Bool
  | [] => charsStartsWith pat []
  | c :: cs => charsStartsWith pat (c :: cs) || charsContainsSub pat cs

def strIncludes (s pat : String) : Bool :=
  charsContainsSub pat.data s.data

/-! ## Lease manager (src/lib/redis.ts)

The lease is the Redis key `polling:poller`.  `attemptTakeoverAsPoller`
uses `SET key value NX EX 30`: the key is created only when no unexpired
key exists, with a 30 second time-to-live.  `refreshPollerLock` runs
`EXPIRE polling:poller 30`, which resets the time-to-live of whatever
value currently exists (and does nothing when the key is absent or
expired); note that the source ignores its `shopId` argument. -/

def pollerLockTTL : Nat := 30

structure LeaseState where
  lease : Option (String × Nat)
deriving DecidableEq, Repr

def heldAt (st : LeaseState) (now : Nat) : Bool :=
  match st.lease with
  | some p => decide (now < p.2)
  | none => false

def attemptTakeoverAsPoller (st : LeaseState) (now : Nat) (shopId : String) :
    Bool × LeaseState :=
  if heldAt st now then (false, st)
  else (true, ⟨some (shopId, now + pollerLockTTL)⟩)

def redisExpire (st : LeaseState) (now ttl : Nat) : LeaseState :=
  match st.lease with
  | some p => if now < p.2 then ⟨some (p.1, now + ttl)⟩ else st
  | none => st

def refreshPollerLock (st : LeaseState) (now : Nat) (_shopId : String) : LeaseState :=
  redisExpire st now pollerLockTTL

def runTryAcquires (st : LeaseState) : List (String × Nat) → List Bool × LeaseState
  | [] => ([], st)
  | (c, t) :: rest =>
    let r := attemptTakeoverAsPoller st t c
    let rs := runTryAcquires r.2 rest
    (r.1 :: rs.1, rs.2)

/-! ## Heartbeat and mode (src/lib/redis.ts, src/app/api/heartbeat/route.ts)

`getMode` reads the stored key `polling:mode` as-is.  The heartbeat GET
route computes `isActive` at read time from the heartbeat timestamp and
`POLLING_CONFIG.HEARTBEAT_TIMEOUT` (15000 ms); in JavaScript
`heartbeat && (now - heartbeat < TIMEOUT)` is falsy when the stored
heartbeat is 0, which the model reproduces. -/

inductive Mode where
  | active6s
  | sleeping1min
deriving DecidableEq, Repr

structure CoordState where
  heartbeat : Option Nat
  pollerLease : LeaseState
  storedMode : Option Mode
deriving DecidableEq, Repr

def getMode (st : CoordState) : Option Mode := st.storedMode

def heartbeatTimeout : Nat := 15000

structure HeartbeatResponse where
  isActive : Bool
  mode : Option Mode
  timeSinceLastPoll : Option Nat
deriving DecidableEq, Repr

def heartbeatGET (st : CoordState) (now : Nat) : HeartbeatResponse :=
  { isActive :=
      match st.heartbeat with
      | some hb => decide (hb ≠ 0) && decide (now - hb < heartbeatTimeout)
      | none => false
  , mode := getMode st
  , timeSinceLastPoll := st.heartbeat.map (fun hb => now - hb) }

/-- Modelled from the spec: `CurrentMode(now, timeout) -> Fast | Slow` is
`Fast` iff a lease is currently held AND `now - last_poll_at < timeout`;
otherwise `Slow`.  This definition follows the specification's words and
exists only to be compared with the implementation's stored-mode read. -/
def specCurrentMode (st : CoordState) (now timeout : Nat) : Mode :=
  if heldAt st.pollerLease now
      && (match st.heartbeat with
          | some hb => decide (now - hb < timeout)
          | none => false) then
    Mode.active6s
  else Mode.sleeping1min

/-! ## Cursor registry (src/lib/redis.ts getLastId / setLastId)

A cursor map sends (account, currency) to the last processed id, with 0
when nothing was processed yet (`getLastId` returns '0' when the key is
absent).  `setLastId` is a plain unconditional `SET`. -/

abbrev Cursors := String → String → Nat

def setLastId (cur : Cursors) (account currency : String) (id : Nat) : Cursors :=
  fun a c => if a = account ∧ c = currency then id else cur a c

/-! ## Association lists modelling the JavaScript `Map` accumulators -/

def alGet (l : List (String × Nat)) (k : String) : Option Nat :=
  match l.find? (fun p => p.1 == k) with
  | some p => some p.2
  | none => none

def alSet (l : List (String × Nat)) (k : String) (v : Nat) : List (String × Nat) :=
  match l.find? (fun p => p.1 == k) with
  | some _ => l.map (fun p => if p.1 == k then (k, v) else p)
  | none => l ++ [(k, v)]

/-! ## Minimum cursor (the `minLastId` computation in haf-polling.ts) -/

def maxSafeInteger : Nat := 9007199254740991

def minLastId (cur : Cursors) (accounts : List String) (currency : String) : Nat :=
  accounts.foldl (fun m a => min m (cur a currency)) maxSafeInteger

/-! ## Transfer detector (src/lib/haf-polling.ts)

`RestCtx` is the per-account entry of `accountToContext` (the `env` tag is
carried along in the source but never read by the detector, so it is
omitted).  `memoFilters` models `restaurant.memoFilters[symbol]`.
`RowHBD` is a row of the tabular transfer query (already filtered by the
SQL on symbol, recipient set and `id > minLastId`; the application loop is
defensive and re-checks recipient and cursor, which is what the model
captures by taking the source's response as an arbitrary row list).
Amounts are carried as strings, as the source stringifies them. -/

structure RestCtx where
  restaurantId : String
  memoFilters : String → Option String

structure RowHBD where
  id : Nat
  to_account : String
  from_account : String
  amount : String
  symbol : String
  memo : String
deriving DecidableEq, Repr

structure TransferM where
  id : Nat
  restaurant_id : String
  account : String
  from_account : String
  amount : String
  symbol : String
  memo : String
  block_num : Option Nat
deriving DecidableEq, Repr

def defaultMemoFilter : String := "%TABLE %"

/-- Models `restaurant.memoFilters[symbol] || '%TABLE %'` followed by
`.replace(/%/g, '')` (the JavaScript `||` also replaces an empty-string
filter with the default). -/
def memoPatternFor (rc : RestCtx) (sym : String) : String :=
  let mf := match rc.memoFilters sym with
    | some s => if s = "" then defaultMemoFilter else s
    | none => defaultMemoFilter
  stripPercent mf

/-- Models the `accountLastIds.get(account) || BigInt(0)` reads: the map is
populated from `getLastId` for every account in the polled account list,
and defaults to 0 for accounts outside it. -/
def lastIdsOf (cur : Cursors) (accounts : List String) (currency : String) :
    String → Nat :=
  fun a => if accounts.contains a then cur a currency else 0

/-- Body of the row loop of `pollHBDBatched`: resolve the owning account,
reject unknown accounts, rows at or below the account's cursor, and memo
mismatches; otherwise track the per-account maximum id and emit a
transfer. -/
def processHBDRow (ctx : String → Option RestCtx) (lastIds : String → Nat)
    (st : List TransferM × List (String × Nat)) (row : RowHBD) :
    List TransferM × List (String × Nat) :=
  match ctx row.to_account with
  | none => st
  | some rc =>
    if row.id ≤ lastIds row.to_account then st
    else if strIncludes row.memo (memoPatternFor rc "HBD") = false then st
    else
      let currentMax := (alGet st.2 row.to_account).getD 0
      let maxIds := if currentMax < row.id then alSet st.2 row.to_account row.id else st.2
      (st.1 ++ [{ id := row.id, restaurant_id := rc.restaurantId,
                  account := row.to_account, from_account := row.from_account,
                  amount := row.amount, symbol := "HBD", memo := row.memo,
                  block_num := none }], maxIds)

/-- `pollHBDBatched`: read the cursor snapshot, process the source rows,
then write back `setLastId` for every account that received transfers. -/
def pollHBDBatched (ctx : String → Option RestCtx) (accounts : List String)
    (cur : Cursors) (rows : List RowHBD) : List TransferM × Cursors :=
  if accounts.isEmpty then ([], cur)
  else
    let lastIds := lastIdsOf cur accounts "HBD"
    let st := rows.foldl (processHBDRow ctx lastIds) ([], [])
    (st.1, st.2.foldl (fun c p => setLastId c p.1 "HBD" p.2) cur)

/-! ### Hive-Engine detector (`pollHiveEngineTokenBatched`)

A `custom_json` row carries an optional parsed payload (`none` models a
JSON parse failure, which the source logs and skips).  A non-string memo
payload (which the source stringifies) is outside the model; `memo = none`
models an absent memo, which the source turns into the empty string. -/

structure CJPayload where
  symbol : String
  receiver : Option String
  memo : Option String
  quantity : Option String
deriving DecidableEq, Repr

structure CJData where
  contractName : String
  contractAction : String
  contractPayload : Option CJPayload
deriving DecidableEq, Repr

structure RowCJ where
  id : Nat
  block_num : Nat
  custom_id : String
  json : Option CJData
  required_auths : List String
deriving DecidableEq, Repr

/-- The SQL of the Hive-Engine detector: rows with `block_num BETWEEN
startBlock AND endBlock`, `custom_id = 'ssc-mainnet-hive'` and
`id > minId`, limited to 1000 rows.  The ledger list stands in for the
table in its query order (the `ORDER BY block_num DESC` of the source
affects only which rows survive the LIMIT, not the properties proved
here). -/
def heQuery (ledger : List RowCJ) (startBlock endBlock minId : Nat) : List RowCJ :=
  (ledger.filter (fun r =>
    decide (startBlock ≤ r.block_num) && decide (r.block_num ≤ endBlock)
      && (r.custom_id == "ssc-mainnet-hive") && decide (minId < r.id))).take 1000

/-- Body of the row loop of `pollHiveEngineTokenBatched`: parse failures,
non-token-transfer messages, wrong symbols, absent/empty/unknown
recipients, rows at or below the recipient's cursor and memo mismatches
are skipped; otherwise the sender is the first required auth (or
"unknown"), the amount is the payload quantity (or "0"), and the transfer
carries the row's block number. -/
def processHERow (sym : String) (ctx : String → Option RestCtx) (lastIds : String → Nat)
    (st : List TransferM × List (String × Nat)) (row : RowCJ) :
    List TransferM × List (String × Nat) :=
  match row.json with
  | none => st
  | some d =>
    if d.contractName = "tokens" ∧ d.contractAction = "transfer"
        ∧ d.contractPayload.map CJPayload.symbol = some sym then
      match d.contractPayload with
      | none => st
      | some p =>
        match p.receiver with
        | none => st
        | some toAccount =>
          if toAccount = "" then st
          else
            match ctx toAccount with
            | none => st
            | some rc =>
              if row.id ≤ lastIds toAccount then st
              else
                let memoString := p.memo.getD ""
                if strIncludes memoString (memoPatternFor rc sym) = false then st
                else
                  let fromAccount := match row.required_auths with
                    | [] => "unknown"
                    | a :: _ => a
                  let quantity := match p.quantity with
                    | none => "0"
                    | some q => if q = "" then "0" else q
                  let currentMax := (alGet st.2 toAccount).getD 0
                  let maxIds :=
                    if currentMax < row.id then alSet st.2 toAccount row.id else st.2
                  (st.1 ++ [{ id := row.id, restaurant_id := rc.restaurantId,
                              account := toAccount, from_account := fromAccount,
                              amount := quantity, symbol := sym, memo := memoString,
                              block_num := some row.block_num }], maxIds)
    else st

/-- Default head block used by the source when the block query returns no
row. -/
def defaultHeadBlock : Nat := 101140000

/-- Width of the trailing block window scanned by the Hive-Engine
detector. -/
def heWindow : Nat := 10000

/-- `pollHiveEngineTokenBatched`: resolve the current head block, scan the
trailing window of the custom_json ledger bounded below by the minimum
cursor, process the rows, then write back the per-account maxima. -/
def pollHiveEngineTokenBatched (sym : String) (ctx : String → Option RestCtx)
    (accounts : List String) (cur : Cursors) (headBlock : Option Nat)
    (ledger : List RowCJ) : List TransferM × Cursors :=
  if accounts.isEmpty then ([], cur)
  else
    let lastIds := lastIdsOf cur accounts sym
    let currentBlock := headBlock.getD defaultHeadBlock
    let startBlock := currentBlock - heWindow
    let rows := heQuery ledger startBlock currentBlock (minLastId cur accounts sym)
    let st := rows.foldl (processHERow sym ctx lastIds) ([], [])
    (st.1, st.2.foldl (fun c p => setLastId c p.1 sym p.2) cur)

/-! ### One polling cycle (`pollAllTransfers`)

The source polls HBD, then EURO, then OCLT — each sub-poll committing its
own `setLastId` writes — and only afterwards publishes the accumulated
transfers to the per-restaurant streams.  The whole body sits in a
`try`/`catch` that logs and falls through to `return allTransfers`, so a
failure in the EURO query (modelled by the `euroFails` flag as a
representative transient source error) leaves the HBD cursor writes
committed, skips publishing, and still returns the HBD transfers. -/

structure PollStore where
  cursors : Cursors
  published : List (String × TransferM)

def pollAllTransfersModel (ctx : String → Option RestCtx) (accounts : List String)
    (st : PollStore) (hbdRows : List RowHBD)
    (headE : Option Nat) (ledgerE : List RowCJ)
    (headO : Option Nat) (ledgerO : List RowCJ)
    (euroFails : Bool) : List TransferM × PollStore :=
  let hbd := pollHBDBatched ctx accounts st.cursors hbdRows
  if euroFails then
    (hbd.1, { st with cursors := hbd.2 })
  else
    let euro := pollHiveEngineTokenBatched "EURO" ctx accounts hbd.2 headE ledgerE
    let oclt := pollHiveEngineTokenBatched "OCLT" ctx accounts euro.2 headO ledgerO
    let all := hbd.1 ++ euro.1 ++ oclt.1
    (all, { cursors := oclt.2
          , published := st.published ++ all.map (fun t => (t.restaurant_id, t)) })

/-! ## Stream consumer protocol (consume endpoint, ack endpoint)

One recipient stream with one consumer group.  `entries` is the
append-only log in ascending entry-id order; the group tracks the
last-delivered id and the pending-entries list (entry id, consumer,
delivery time). -/

structure PendingEntry where
  entryId : Nat
  consumer : String
  deliveryTime : Nat
deriving DecidableEq, Repr

structure GroupState where
  lastDelivered : Nat
  pending : List PendingEntry
deriving DecidableEq, Repr

structure StreamState where
  entries : List (Nat × TransferM)
  group : GroupState
deriving DecidableEq, Repr

/-- Modelled from the spec: `XREADGROUP GROUP g c COUNT n STREAMS key >`
delivers only entries not yet delivered to any consumer in the group,
appends them to the pending list assigned to this consumer, and advances
the group's last-delivered cursor. -/
def xreadgroup (st : StreamState) (consumer : String) (count : Nat) (now : Nat) :
    List (Nat × TransferM) × StreamState :=
  let fresh := (st.entries.filter (fun e => decide (st.group.lastDelivered < e.1))).take count
  match fresh with
  | [] => ([], st)
  | _ =>
    let newLast := fresh.foldl (fun m e => max m e.1) st.group.lastDelivered
    (fresh,
      { st with group :=
          { lastDelivered := newLast
          , pending := st.group.pending
              ++ fresh.map (fun e => ⟨e.1, consumer, now⟩) } })

/-- Modelled from the spec: `XAUTOCLAIM key g consumer min-idle-ms 0-0 COUNT n`
reassigns to `consumer` up to `count` pending entries that have been idle
for at least `minIdle`, resetting their delivery time, and returns the
claimed entries with their payloads. -/
def xautoclaim (st : StreamState) (consumer : String) (minIdle count now : Nat) :
    List (Nat × TransferM) × StreamState :=
  let eligible := (st.group.pending.filter
    (fun p => decide (minIdle ≤ now - p.deliveryTime))).take count
  let claimedIds := eligible.map PendingEntry.entryId
  let claimed := st.entries.filter (fun e => claimedIds.contains e.1)
  (claimed,
    { st with group :=
        { st.group with pending := st.group.pending.map (fun p =>
            if claimedIds.contains p.entryId then ⟨p.entryId, consumer, now⟩ else p) } })

/-- The consume route (XAUTOCLAIM variant): read new entries for this
consumer; when none are available, auto-claim pending entries idle for at
least 10000 ms; when that also yields nothing, return the empty list. -/
def consumeMinIdle : Nat := 10000

def consumeGET (st : StreamState) (consumer : String) (count : Nat) (now : Nat) :
    List (Nat × TransferM) × StreamState :=
  let fresh := xreadgroup st consumer count now
  match fresh.1 with
  | _ :: _ => fresh
  | [] => xautoclaim fresh.2 consumer consumeMinIdle count now

/-- Modelled from the spec: `XACK key g id` removes the entry from the
group's pending set and returns 1 when the entry was pending, 0
otherwise. -/
def xack (g : GroupState) (id : Nat) : Nat × GroupState :=
  if g.pending.any (fun p => p.entryId == id) then
    (1, { g with pending := g.pending.filter (fun p => p.entryId != id) })
  else (0, g)

/-- The ack route: acknowledge the message ids one at a time, summing the
0-or-1 results of the individual `XACK` calls. -/
def ackPOST (g : GroupState) : List Nat → Nat × GroupState
  | [] => (0, g)
  | id :: rest =>
    let r := xack g id
    let rs := ackPOST r.2 rest
    (r.1 + rs.1, rs.2)

/-! ## Concrete scenario data used by the closed theorems and witnesses -/

/-- Two known accounts: `x` (restaurant `rx`) and `z` (restaurant `rz`),
both with the default-shaped memo filter. -/
def ctxC : String → Option RestCtx := fun a =>
  if a = "x" then some ⟨"rx", fun _ => some "%TABLE %"⟩
  else if a = "z" then some ⟨"rz", fun _ => some "%TABLE %"⟩
  else none

def accsC : List String := ["x", "z"]

/-- Cursor snapshot: `x` at 100 for HBD and 3 for EURO, `z` at 7 for
HBD, 0 elsewhere. -/
def curC : Cursors := fun a c =>
  if a = "x" ∧ c = "HBD" then 100
  else if a = "z" ∧ c = "HBD" then 7
  else if a = "x" ∧ c = "EURO" then 3
  else 0

/-- Source rows in descending id order: 106 addressed to the unknown
account `y`, then 105, 104, 103 addressed to `x` with matching memos. -/
def rowsC : List RowHBD :=
  [ ⟨106, "y", "bob", "2.000", "HBD", "TABLE 9"⟩
  , ⟨105, "x", "alice", "1.000", "HBD", "TABLE 4"⟩
  , ⟨104, "x", "carol", "5.000", "HBD", "TABLE 2"⟩
  , ⟨103, "x", "dave", "3.000", "HBD", "TABLE 1"⟩ ]

/-- A single fresh HBD row for the failure-injection scenario. -/
def rowsFail : List RowHBD := [⟨105, "x", "alice", "1.000", "HBD", "TABLE 4"⟩]

end MerchantHub

namespace MerchantHub

/-! ## Theorems -/

/-- Claim C1: for a set of TryAcquire calls with distinct candidate ids
issued against an initially unheld (or expired) lease, all within the
first winner's lease validity window, exactly the first call returns true,
every other call returns false, and the lease record ends up holding the
winning candidate with expiry now+ttl. -/
theorem tryAcquire_exactly_one
    (st0 : LeaseState) (c0 : String) (t0 : Nat) (rest : List (String × Nat))
    (hfree : heldAt st0 t0 = false)
    (hdistinct : (c0 :: rest.map Prod.fst).Nodup)
    (hwin : ∀ p ∈ rest, t0 ≤ p.2 ∧ p.2 < t0 + pollerLockTTL) :
    (runTryAcquires st0 ((c0, t0) :: rest)).1 = true :: rest.map (fun _ => false) ∧
    (runTryAcquires st0 ((c0, t0) :: rest)).2 = ⟨some (c0, t0 + pollerLockTTL)⟩ := by
  have hstep : attemptTakeoverAsPoller st0 t0 c0 =
      (true, ⟨some (c0, t0 + pollerLockTTL)⟩) := by
    simp [attemptTakeoverAsPoller, hfree]
  have hrest : ∀ (calls : List (String × Nat)),
      (∀ p ∈ calls, p.2 < t0 + pollerLockTTL) →
      runTryAcquires ⟨some (c0, t0 + pollerLockTTL)⟩ calls =
        (calls.map (fun _ => false), ⟨some (c0, t0 + pollerLockTTL)⟩) := by
    intro calls
    induction calls with
    | nil => intro _; rfl
    | cons hd tl ih =>
      intro h
      have hh : hd.2 < t0 + pollerLockTTL := h hd (by simp)
      have hheld : heldAt ⟨some (c0, t0 + pollerLockTTL)⟩ hd.2 = true := by
        simp [heldAt, hh]
      simp only [runTryAcquires, attemptTakeoverAsPoller, hheld, if_true, List.map]
      rw [ih (fun p hp => h p (by simp [hp]))]
  constructor
  · simp only [runTryAcquires, hstep]
    rw [hrest rest (fun p hp => (hwin p hp).2)]
  · simp only [runTryAcquires, hstep]
    rw [hrest rest (fun p hp => (hwin p hp).2)]

/-- Witness for C1: three concurrent candidates against a free lease; the
first wins, the others fail, and the lease holds the winner. -/
theorem tryAcquire_exactly_one_witness :
    (runTryAcquires ⟨none⟩ [("a", 0), ("b", 5), ("c", 29)]).1 = [true, false, false] ∧
    (runTryAcquires ⟨none⟩ [("a", 0), ("b", 5), ("c", 29)]).2 = ⟨some ("a", 30)⟩ :=
  tryAcquire_exactly_one ⟨none⟩ "a" 0 [("b", 5), ("c", 29)]
    (by decide) (by decide) (by decide)

/-- Claim C8 counterexample: a Renew issued by the non-holder "a" while
"b" holds an unexpired lease resets the lease expiry from 100 to 125, so
the lease state is not left unchanged. -/
theorem refreshPollerLock_nonholder_extends :
    refreshPollerLock ⟨some ("b", 100)⟩ 95 "a" = ⟨some ("b", 125)⟩ ∧
    (⟨some ("b", 125)⟩ : LeaseState) ≠ ⟨some ("b", 100)⟩ ∧ "a" ≠ "b" := by
  refine ⟨rfl, by decide, by decide⟩

/-- Claim C8 amended: a Renew call never changes the holder; it is a no-op
when no unexpired lease exists, and when an unexpired lease exists it
resets that lease's expiry to now+ttl regardless of the caller's
identity. -/
theorem refreshPollerLock_holder_frame (st : LeaseState) (now : Nat) (caller : String) :
    (refreshPollerLock st now caller).lease.map Prod.fst = st.lease.map Prod.fst ∧
    (heldAt st now = false → refreshPollerLock st now caller = st) ∧
    (∀ h e, st.lease = some (h, e) → now < e →
      refreshPollerLock st now caller = ⟨some (h, now + pollerLockTTL)⟩) := by
  obtain ⟨lease⟩ := st
  cases lease with
  | none => exact ⟨rfl, fun _ => rfl, fun h e he => by simp at he⟩
  | some p =>
    by_cases hlt : now < p.2
    · refine ⟨?_, ?_, ?_⟩
      · simp [refreshPollerLock, redisExpire, hlt]
      · intro hf
        simp [heldAt, hlt] at hf
      · intro h e he _
        injection he with he'
        subst he'
        simp [refreshPollerLock, redisExpire, hlt]
    · refine ⟨?_, ?_, ?_⟩
      · simp [refreshPollerLock, redisExpire, hlt]
      · intro _
        simp [refreshPollerLock, redisExpire, hlt]
      · intro h e he hlt'
        injection he with he'
        subst he'
        exact absurd hlt' hlt

/-- Witness for the amended C8: a renew by "a" while "b" holds an
unexpired lease keeps the holder "b"; a renew against an expired lease is
a no-op; the refreshed expiry is now+ttl. -/
theorem refreshPollerLock_holder_frame_witness :
    (refreshPollerLock ⟨some ("b", 100)⟩ 95 "a").lease.map Prod.fst =
      (some ("b", 100) : Option (String × Nat)).map Prod.fst ∧
    (heldAt ⟨some ("b", 100)⟩ 95 = false → refreshPollerLock ⟨some ("b", 100)⟩ 95 "a" = ⟨some ("b", 100)⟩) ∧
    (∀ h e, (⟨some ("b", 100)⟩ : LeaseState).lease = some (h, e) → 95 < e →
      refreshPollerLock ⟨some ("b", 100)⟩ 95 "a" = ⟨some (h, 95 + pollerLockTTL)⟩) :=
  refreshPollerLock_holder_frame ⟨some ("b", 100)⟩ 95 "a"

/-- Claim C3 counterexample: the registry write `setLastId` is an
unconditional SET; with a stored cursor of 100 it happily writes the
smaller candidate 50, so a later Get returns a strictly smaller value than
before — the registry itself enforces no strictly-greater check. -/
theorem setLastId_not_monotone :
    (fun _ _ => 100 : Cursors) "x" "HBD" = 100 ∧
    setLastId (fun _ _ => 100) "x" "HBD" 50 "x" "HBD" = 50 ∧ 50 < 100 := by
  refine ⟨rfl, by decide, by decide⟩

/-- Claim C9 counterexample: with no heartbeat recorded and no lease held
but `polling:mode` storing `active-6s`, the mode read returns `active-6s`
(Fast) while the specification's recomputed classification is Slow — the
mode is read from an independently stored value, not recomputed. -/
theorem getMode_not_recomputed :
    getMode ⟨none, ⟨none⟩, some Mode.active6s⟩ = some Mode.active6s ∧
    (heartbeatGET ⟨none, ⟨none⟩, some Mode.active6s⟩ 0).mode = some Mode.active6s ∧
    specCurrentMode ⟨none, ⟨none⟩, some Mode.active6s⟩ 0 heartbeatTimeout = Mode.sleeping1min ∧
    Mode.active6s ≠ Mode.sleeping1min := by
  refine ⟨rfl, rfl, rfl, by decide⟩

/-- Claim C9 amended: the heartbeat read returns the stored mode value
unchanged (independent of heartbeat and lease state), and separately
computes at read time an `isActive` flag that is true exactly when a
nonzero heartbeat is recorded and `now - last_poll_at` is strictly below
the timeout — with no lease check involved. -/
theorem heartbeatGET_mode_stored (st : CoordState) (now : Nat) :
    (heartbeatGET st now).mode = st.storedMode ∧
    ((heartbeatGET st now).isActive = true ↔
      ∃ hb, st.heartbeat = some hb ∧ hb ≠ 0 ∧ now - hb < heartbeatTimeout) ∧
    (∀ hb lease, (heartbeatGET ⟨hb, lease, st.storedMode⟩ now).mode = st.storedMode) := by
  refine ⟨rfl, ?_, fun _ _ => rfl⟩
  cases hhb : st.heartbeat with
  | none => simp [heartbeatGET, hhb]
  | some hb => simp [heartbeatGET, hhb]

/-- Witness for the amended C9: a state with heartbeat 5 and a stored
sleeping mode at time 10. -/
theorem heartbeatGET_mode_stored_witness :
    (heartbeatGET ⟨some 5, ⟨none⟩, some Mode.sleeping1min⟩ 10).mode = some Mode.sleeping1min ∧
    ((heartbeatGET ⟨some 5, ⟨none⟩, some Mode.sleeping1min⟩ 10).isActive = true ↔
      ∃ hb, (⟨some 5, ⟨none⟩, some Mode.sleeping1min⟩ : CoordState).heartbeat = some hb
        ∧ hb ≠ 0 ∧ 10 - hb < heartbeatTimeout) ∧
    (∀ hb lease, (heartbeatGET ⟨hb, lease, some Mode.sleeping1min⟩ 10).mode = some Mode.sleeping1min) :=
  heartbeatGET_mode_stored ⟨some 5, ⟨none⟩, some Mode.sleeping1min⟩ 10

/-- Claim C4: with account `x` at HBD cursor 100 and source rows 105, 104,
103 for `x` (matching memos) plus row 106 for the unknown address `y`, the
cycle returns exactly three transfers, all for `x`, drops row 106,
advances `x`'s HBD cursor to 105, and leaves the HBD cursor of the other
known account `z` and the EURO cursor of `x` unchanged. -/
theorem pollHBD_scenario :
    (pollHBDBatched ctxC accsC curC rowsC).1.length = 3 ∧
    (∀ t ∈ (pollHBDBatched ctxC accsC curC rowsC).1, t.account = "x" ∧ t.restaurant_id = "rx") ∧
    (∀ t ∈ (pollHBDBatched ctxC accsC curC rowsC).1, t.id ≠ 106) ∧
    (pollHBDBatched ctxC accsC curC rowsC).1.map TransferM.id = [105, 104, 103] ∧
    (pollHBDBatched ctxC accsC curC rowsC).2 "x" "HBD" = 105 ∧
    (pollHBDBatched ctxC accsC curC rowsC).2 "z" "HBD" = 7 ∧
    (pollHBDBatched ctxC accsC curC rowsC).2 "x" "EURO" = 3 := by
  decide

/-- Claim C2 evaluation at the failing input: account `x` has HBD cursor
100, the source returns the fresh matching row 105, and the EURO query
then raises a transient error.  The cycle swallows the error, yet the HBD
cursor stands advanced at 105 while nothing was published — the detected
transfer is returned but lost to the streams, contradicting the
never-advance-on-failure design. -/
theorem pollCycle_failure_advances_cursor :
    (pollAllTransfersModel ctxC accsC ⟨curC, []⟩ rowsFail none [] none [] true).2.cursors "x" "HBD" = 105 ∧
    (pollAllTransfersModel ctxC accsC ⟨curC, []⟩ rowsFail none [] none [] true).2.published = [] ∧
    (pollAllTransfersModel ctxC accsC ⟨curC, []⟩ rowsFail none [] none [] true).1.length = 1 ∧
    curC "x" "HBD" = 100 := by
  decide

/-- Entries of `alSet l k v` are the new pair or entries of `l`. -/
theorem mem_alSet (l : List (String × Nat)) (k : String) (v : Nat) :
    ∀ p ∈ alSet l k v, p = (k, v) ∨ p ∈ l := by
  intro p hp
  unfold alSet at hp
  cases hf : l.find? (fun q => q.1 == k) with
  | some q =>
    rw [hf] at hp
    rcases List.mem_map.mp hp with ⟨q', hq', hq'eq⟩
    by_cases hk : (q'.1 == k) = true
    · left
      rw [← hq'eq, if_pos hk]
    · right
      rw [← hq'eq, if_neg hk]
      exact hq'
  | none =>
    rw [hf] at hp
    rcases List.mem_append.mp hp with h | h
    · right; exact h
    · left; simpa using h

/-- Every per-account maximum tracked by the HBD row loop strictly exceeds
the cursor that was read for that account at the start of the cycle. -/
theorem processHBDRow_maxIds_inv (ctx : String → Option RestCtx) (accounts : List String)
    (cur : Cursors) (hdom : ∀ a rc, ctx a = some rc → accounts.contains a = true)
    (st : List TransferM × List (String × Nat)) (row : RowHBD)
    (h : ∀ p ∈ st.2, cur p.1 "HBD" < p.2) :
    ∀ p ∈ (processHBDRow ctx (lastIdsOf cur accounts "HBD") st row).2,
      cur p.1 "HBD" < p.2 := by
  intro p hp
  unfold processHBDRow at hp
  split at hp
  · exact h p hp
  · rename_i rc hc
    split at hp
    · exact h p hp
    · rename_i h1
      split at hp
      · exact h p hp
      · simp only at hp
        have hlt : cur row.to_account "HBD" < row.id := by
          have hcont := hdom row.to_account rc hc
          have heq : lastIdsOf cur accounts "HBD" row.to_account = cur row.to_account "HBD" := by
            unfold lastIdsOf
            rw [if_pos hcont]
          rw [heq] at h1
          exact Nat.lt_of_not_le h1
        split at hp
        · rcases mem_alSet st.2 row.to_account row.id p hp with he | hm
          · rw [he]
            exact hlt
          · exact h p hm
        · exact h p hp

/-- Fold form of the previous invariant over a whole row batch. -/
theorem hbdFold_maxIds_gt (ctx : String → Option RestCtx) (accounts : List String)
    (cur : Cursors) (hdom : ∀ a rc, ctx a = some rc → accounts.contains a = true)
    (rows : List RowHBD) :
    ∀ st : List TransferM × List (String × Nat),
      (∀ p ∈ st.2, cur p.1 "HBD" < p.2) →
      ∀ p ∈ (rows.foldl (processHBDRow ctx (lastIdsOf cur accounts "HBD")) st).2,
        cur p.1 "HBD" < p.2 := by
  induction rows with
  | nil => intro st h; exact h
  | cons r rs ih =>
    intro st h
    simp only [List.foldl_cons]
    exact ih _ (processHBDRow_maxIds_inv ctx accounts cur hdom st r h)

/-- Writing back per-account maxima that all strictly exceed the original
cursors can only move every cursor upward. -/
theorem foldl_setLastId_ge (c : String) (l : List (String × Nat)) :
    ∀ cur0 cur : Cursors, (∀ a c', cur0 a c' ≤ cur a c') →
      (∀ p ∈ l, cur0 p.1 c < p.2) →
      ∀ a c', cur0 a c' ≤ (l.foldl (fun m p => setLastId m p.1 c p.2) cur) a c' := by
  induction l with
  | nil =>
    intro cur0 cur hle _ a c'
    exact hle a c'
  | cons hd tl ih =>
    intro cur0 cur hle h a c'
    simp only [List.foldl_cons]
    apply ih cur0 _ _ (fun p hp => h p (List.mem_cons_of_mem _ hp)) a c'
    intro a' c''
    unfold setLastId
    by_cases hcond : a' = hd.1 ∧ c'' = c
    · rw [if_pos hcond]
      rcases hcond with ⟨ha, hc2⟩
      subst ha
      subst hc2
      exact le_of_lt (h hd (List.mem_cons_self _ _))
    · rw [if_neg hcond]
      exact hle a' c''

/-- Claim C3 amended: the registry write is unconditional, but the
detector preserves monotonicity — across a full HBD polling cycle every
(account, currency) cursor is pointwise at least its value before the
cycle, because each write-back uses the maximum accepted id, which
strictly exceeds the cursor read at the start. -/
theorem pollHBD_cursor_monotone (ctx : String → Option RestCtx) (accounts : List String)
    (cur : Cursors) (rows : List RowHBD)
    (hdom : ∀ a rc, ctx a = some rc → accounts.contains a = true) :
    ∀ a c, cur a c ≤ (pollHBDBatched ctx accounts cur rows).2 a c := by
  intro a c
  unfold pollHBDBatched
  by_cases he : accounts.isEmpty = true
  · rw [if_pos he]
  · rw [if_neg he]
    simp only
    apply foldl_setLastId_ge "HBD" _ cur cur (fun _ _ => le_refl _)
    apply hbdFold_maxIds_gt ctx accounts cur hdom rows ([], [])
    intro p hp
    simp at hp

/-- Witness for the amended C3: in the concrete C4 scenario the HBD cursor
of account `x` does not decrease. -/
theorem pollHBD_cursor_monotone_witness :
    curC "x" "HBD" ≤ (pollHBDBatched ctxC accsC curC rowsC).2 "x" "HBD" :=
  pollHBD_cursor_monotone ctxC accsC curC rowsC
    (by
      intro a rc h
      by_cases hx : a = "x"
      · subst hx; decide
      · by_cases hz : a = "z"
        · subst hz; decide
        · simp [ctxC, hx, hz] at h)
    "x" "HBD"

/-- A row whose id is at or below every account's cursor is rejected by
the HBD row loop. -/
theorem processHBDRow_stale (ctx : String → Option RestCtx) (accounts : List String)
    (cur : Cursors) (hdom : ∀ a rc, ctx a = some rc → accounts.contains a = true)
    (st : List TransferM × List (String × Nat)) (row : RowHBD)
    (hrow : ∀ a, row.id ≤ cur a "HBD") :
    processHBDRow ctx (lastIdsOf cur accounts "HBD") st row = st := by
  unfold processHBDRow
  split
  · rfl
  · rename_i rc hc
    have hcont := hdom row.to_account rc hc
    have hle : row.id ≤ lastIdsOf cur accounts "HBD" row.to_account := by
      unfold lastIdsOf
      rw [if_pos hcont]
      exact hrow row.to_account
    rw [if_pos hle]

/-- Fold form: a batch of stale rows leaves the loop state unchanged. -/
theorem hbdFold_stale (ctx : String → Option RestCtx) (accounts : List String)
    (cur : Cursors) (hdom : ∀ a rc, ctx a = some rc → accounts.contains a = true)
    (rows : List RowHBD) (h : ∀ r ∈ rows, ∀ a, r.id ≤ cur a "HBD") :
    ∀ st, rows.foldl (processHBDRow ctx (lastIdsOf cur accounts "HBD")) st = st := by
  induction rows with
  | nil => intro st; rfl
  | cons r rs ih =>
    intro st
    simp only [List.foldl_cons]
    rw [processHBDRow_stale ctx accounts cur hdom st r (h r (by simp))]
    exact ih (fun r' hr' => h r' (by simp [hr'])) st

/-- The HBD sub-poll on a stale batch finds nothing and returns the cursor
map unchanged. -/
theorem pollHBD_stale (ctx : String → Option RestCtx) (accounts : List String)
    (cur : Cursors) (rows : List RowHBD)
    (hdom : ∀ a rc, ctx a = some rc → accounts.contains a = true)
    (h : ∀ r ∈ rows, ∀ a, r.id ≤ cur a "HBD") :
    pollHBDBatched ctx accounts cur rows = ([], cur) := by
  unfold pollHBDBatched
  by_cases he : accounts.isEmpty = true
  · rw [if_pos he]
  · rw [if_neg he]
    simp only
    rw [hbdFold_stale ctx accounts cur hdom rows h ([], [])]
    rfl

/-- A custom_json row whose id is at or below every account's cursor is
rejected by the Hive-Engine row loop. -/
theorem processHERow_stale (sym : String) (ctx : String → Option RestCtx)
    (accounts : List String) (cur : Cursors)
    (hdom : ∀ a rc, ctx a = some rc → accounts.contains a = true)
    (st : List TransferM × List (String × Nat)) (row : RowCJ)
    (hrow : ∀ a, row.id ≤ cur a sym) :
    processHERow sym ctx (lastIdsOf cur accounts sym) st row = st := by
  unfold processHERow
  split
  · rfl
  · rename_i d hj
    split
    · split
      · rfl
      · rename_i p hp
        split
        · rfl
        · rename_i toAccount hto
          split
          · rfl
          · split
            · rfl
            · rename_i hne rc hc
              have hcont := hdom toAccount rc hc
              have hle : row.id ≤ lastIdsOf cur accounts sym toAccount := by
                unfold lastIdsOf
                rw [if_pos hcont]
                exact hrow toAccount
              rw [if_pos hle]
    · rfl

/-- Fold form for the Hive-Engine loop. -/
theorem heFold_stale (sym : String) (ctx : String → Option RestCtx)
    (accounts : List String) (cur : Cursors)
    (hdom : ∀ a rc, ctx a = some rc → accounts.contains a = true)
    (rows : List RowCJ) (h : ∀ r ∈ rows, ∀ a, r.id ≤ cur a sym) :
    ∀ st, rows.foldl (processHERow sym ctx (lastIdsOf cur accounts sym)) st = st := by
  induction rows with
  | nil => intro st; rfl
  | cons r rs ih =>
    intro st
    simp only [List.foldl_cons]
    rw [processHERow_stale sym ctx accounts cur hdom st r (h r (by simp))]
    exact ih (fun r' hr' => h r' (by simp [hr'])) st

/-- The Hive-Engine sub-poll on a stale ledger finds nothing and returns
the cursor map unchanged. -/
theorem pollHE_stale (sym : String) (ctx : String → Option RestCtx)
    (accounts : List String) (cur : Cursors) (headBlock : Option Nat)
    (ledger : List RowCJ)
    (hdom : ∀ a rc, ctx a = some rc → accounts.contains a = true)
    (h : ∀ r ∈ ledger, ∀ a, r.id ≤ cur a sym) :
    pollHiveEngineTokenBatched sym ctx accounts cur headBlock ledger = ([], cur) := by
  unfold pollHiveEngineTokenBatched
  by_cases he : accounts.isEmpty = true
  · rw [if_pos he]
  · rw [if_neg he]
    simp only
    have hq : ∀ r ∈ heQuery ledger (headBlock.getD defaultHeadBlock - heWindow)
        (headBlock.getD defaultHeadBlock) (minLastId cur accounts sym),
        ∀ a, r.id ≤ cur a sym := by
      intro r hr
      unfold heQuery at hr
      exact h r (List.mem_of_mem_filter (List.take_subset _ _ hr))
    rw [heFold_stale sym ctx accounts cur hdom _ hq ([], [])]
    rfl

/-- Claim C5: re-running a polling cycle when the source holds no record
with id above any account's cursor is idempotent — the cycle returns zero
transfers and returns the store exactly as it was (cursors and published
stream untouched). -/
theorem pollCycle_idempotent (ctx : String → Option RestCtx) (accounts : List String)
    (st : PollStore) (hbdRows : List RowHBD)
    (headE : Option Nat) (ledgerE : List RowCJ)
    (headO : Option Nat) (ledgerO : List RowCJ)
    (hdom : ∀ a rc, ctx a = some rc → accounts.contains a = true)
    (h1 : ∀ r ∈ hbdRows, ∀ a, r.id ≤ st.cursors a "HBD")
    (h2 : ∀ r ∈ ledgerE, ∀ a, r.id ≤ st.cursors a "EURO")
    (h3 : ∀ r ∈ ledgerO, ∀ a, r.id ≤ st.cursors a "OCLT") :
    pollAllTransfersModel ctx accounts st hbdRows headE ledgerE headO ledgerO false =
      ([], st) := by
  unfold pollAllTransfersModel
  rw [pollHBD_stale ctx accounts st.cursors hbdRows hdom h1]
  simp only [Bool.false_eq_true, if_false]
  rw [pollHE_stale "EURO" ctx accounts st.cursors headE ledgerE hdom h2]
  rw [pollHE_stale "OCLT" ctx accounts st.cursors headO ledgerO hdom h3]
  simp

/-- Witness for C5: one known account `x` with all cursors at 100 and a
single stale HBD row with id 50. -/
theorem pollCycle_idempotent_witness :
    pollAllTransfersModel (fun a => if a = "x" then some ⟨"rx", fun _ => none⟩ else none)
      ["x"] ⟨fun _ _ => 100, []⟩ [⟨50, "x", "alice", "1.000", "HBD", "TABLE 1"⟩]
      none [] none [] false =
      ([], ⟨fun _ _ => 100, []⟩) :=
  pollCycle_idempotent (fun a => if a = "x" then some ⟨"rx", fun _ => none⟩ else none)
    ["x"] ⟨fun _ _ => 100, []⟩ [⟨50, "x", "alice", "1.000", "HBD", "TABLE 1"⟩]
    none [] none []
    (by
      intro a rc h
      by_cases hx : a = "x"
      · subst hx; decide
      · simp [hx] at h)
    (by
      intro r hr a
      simp only [List.mem_singleton] at hr
      subst hr
      show (50 : Nat) ≤ 100
      decide)
    (by intro r hr a; simp at hr)
    (by intro r hr a; simp at hr)

/-- A transfer emitted by the Hive-Engine row loop either was already in
the accumulator or carries the block number of the row that produced
it. -/
theorem processHERow_transfers (sym : String) (ctx : String → Option RestCtx)
    (lastIds : String → Nat) (st : List TransferM × List (String × Nat)) (row : RowCJ) :
    ∀ t ∈ (processHERow sym ctx lastIds st row).1,
      t ∈ st.1 ∨ t.block_num = some row.block_num := by
  intro t ht
  unfold processHERow at ht
  repeat' split at ht
  all_goals try exact Or.inl ht
  all_goals
    simp only at ht
    split at ht
    · exact Or.inl ht
    · simp only at ht
      rcases List.mem_append.mp ht with h | h
      · exact Or.inl h
      · simp only [List.mem_singleton] at h
        subst h
        exact Or.inr rfl

/-- Fold form: every transfer found by the Hive-Engine loop carries the
block number of some processed row. -/
theorem heFold_transfers_block (sym : String) (ctx : String → Option RestCtx)
    (lastIds : String → Nat) (rows : List RowCJ) :
    ∀ st, ∀ t ∈ (rows.foldl (processHERow sym ctx lastIds) st).1,
      t ∈ st.1 ∨ ∃ r ∈ rows, t.block_num = some r.block_num := by
  induction rows with
  | nil => intro st t ht; exact Or.inl ht
  | cons r rs ih =>
    intro st t ht
    simp only [List.foldl_cons] at ht
    rcases ih _ t ht with h | ⟨r', hr', hb⟩
    · rcases processHERow_transfers sym ctx lastIds st r t h with h2 | h2
      · exact Or.inl h2
      · exact Or.inr ⟨r, by simp, h2⟩
    · exact Or.inr ⟨r', by simp [hr'], hb⟩

/-- Claim C10: every transfer detected by the Hive-Engine detector carries
a block number inside the trailing window [head - 10000, head]; a ledger
record whose block number lies below the window can never surface as a
detected transfer, whatever its id. -/
theorem pollHE_block_window (sym : String) (ctx : String → Option RestCtx)
    (accounts : List String) (cur : Cursors) (headBlock : Option Nat)
    (ledger : List RowCJ) (t : TransferM)
    (ht : t ∈ (pollHiveEngineTokenBatched sym ctx accounts cur headBlock ledger).1) :
    ∃ bn, t.block_num = some bn ∧
      headBlock.getD defaultHeadBlock - heWindow ≤ bn ∧
      bn ≤ headBlock.getD defaultHeadBlock := by
  unfold pollHiveEngineTokenBatched at ht
  by_cases he : accounts.isEmpty = true
  · rw [if_pos he] at ht
    simp at ht
  · rw [if_neg he] at ht
    simp only at ht
    rcases heFold_transfers_block sym ctx (lastIdsOf cur accounts sym) _ ([], []) t ht with
      h | ⟨r, hr, hb⟩
    · simp at h
    · unfold heQuery at hr
      have hr' := List.take_subset _ _ hr
      rcases List.mem_filter.mp hr' with ⟨_, hpred⟩
      simp only [Bool.and_eq_true, decide_eq_true_eq] at hpred
      exact ⟨r.block_num, hb, hpred.1.1.1, hpred.1.1.2⟩

/-- Witness for C10: a EURO token transfer in block 101139000 with head
block 101140000 is detected and sits inside the window. -/
theorem pollHE_block_window_witness :
    ∃ bn, (⟨50, "rx", "x", "bob", "1.5", "EURO", "TABLE 3", some 101139000⟩ : TransferM).block_num
        = some bn ∧
      (some 101140000 : Option Nat).getD defaultHeadBlock - heWindow ≤ bn ∧
      bn ≤ (some 101140000 : Option Nat).getD defaultHeadBlock :=
  pollHE_block_window "EURO" ctxC ["x"] (fun _ _ => 0) (some 101140000)
    [⟨50, 101139000, "ssc-mainnet-hive",
      some ⟨"tokens", "transfer", some ⟨"EURO", some "x", some "TABLE 3", some "1.5"⟩⟩, ["bob"]⟩]
    ⟨50, "rx", "x", "bob", "1.5", "EURO", "TABLE 3", some 101139000⟩
    (by decide)

/-- Removing the pending entries for id `i` does not change whether some
entry with a different id `j` is pending. -/
theorem any_entryId_filter_ne (l : List PendingEntry) (i j : Nat) (hne : j ≠ i) :
    (l.filter (fun p => p.entryId != i)).any (fun p => p.entryId == j) =
      l.any (fun p => p.entryId == j) := by
  induction l with
  | nil => rfl
  | cons hd tl ih =>
    by_cases hi : hd.entryId = i
    · have hj : (hd.entryId == j) = false := by
        rw [hi]
        exact beq_eq_false_iff_ne.mpr (fun h => hne h.symm)
      simp [List.filter_cons, List.any_cons, hi, hj, ih]
      intro h
      exact absurd h.symm hne
    · simp [List.filter_cons, List.any_cons, hi, ih]

/-- Claim C7: for a batch of distinct entry ids, the acknowledged count
returned by the ack loop equals the number of those ids that were actually
pending; ids that are not pending contribute 0 without aborting the batch,
and exactly the pending entries named in the batch are removed from the
pending set. -/
theorem ackPOST_count (g : GroupState) (ids : List Nat) (hnd : ids.Nodup) :
    (ackPOST g ids).1 =
      (ids.filter (fun i => g.pending.any (fun p => p.entryId == i))).length ∧
    (ackPOST g ids).2.pending =
      g.pending.filter (fun p => !ids.contains p.entryId) := by
  induction ids generalizing g with
  | nil =>
    refine ⟨rfl, ?_⟩
    simp [ackPOST]
  | cons i rest ih =>
    rcases List.nodup_cons.mp hnd with ⟨hni, hndr⟩
    by_cases hp : g.pending.any (fun p => p.entryId == i) = true
    · have hx : xack g i =
          (1, ⟨g.lastDelivered, g.pending.filter (fun p => p.entryId != i)⟩) := by
        simp [xack, hp]
      have ihg := ih ⟨g.lastDelivered, g.pending.filter (fun p => p.entryId != i)⟩ hndr
      constructor
      · show (xack g i).1 + (ackPOST (xack g i).2 rest).1 = _
        rw [hx]
        simp only
        rw [ihg.1]
        have hsame : rest.filter
            (fun j => (g.pending.filter (fun p => p.entryId != i)).any
              (fun p => p.entryId == j)) =
            rest.filter (fun j => g.pending.any (fun p => p.entryId == j)) := by
          apply List.filter_congr
          intro j hj
          exact any_entryId_filter_ne g.pending i j (fun h => hni (h ▸ hj))
        rw [hsame, List.filter_cons, if_pos hp]
        simp only [List.length_cons]
        omega
      · show (ackPOST (xack g i).2 rest).2.pending = _
        rw [hx]
        simp only
        rw [ihg.2]
        simp only [List.filter_filter]
        apply List.filter_congr
        intro p _
        rw [List.contains_cons, Bool.not_or]
        exact Bool.and_comm _ _
    · have hx : xack g i = (0, g) := by
        simp [xack]
        intro a ha hcontra
        have : g.pending.any (fun p => p.entryId == i) = true :=
          List.any_eq_true.mpr ⟨a, ha, by simp [hcontra]⟩
        exact hp this
      have ihg := ih g hndr
      constructor
      · show (xack g i).1 + (ackPOST (xack g i).2 rest).1 = _
        rw [hx]
        simp only
        rw [ihg.1, List.filter_cons, if_neg (by simp [hp])]
        simp
      · show (ackPOST (xack g i).2 rest).2.pending = _
        rw [hx]
        simp only
        rw [ihg.2]
        apply List.filter_congr
        intro p hmem
        have hpi : (p.entryId == i) = false := by
          by_contra hcontra
          rw [Bool.not_eq_false] at hcontra
          exact hp (List.any_eq_true.mpr ⟨p, hmem, hcontra⟩)
        rw [List.contains_cons, hpi]
        simp

/-- Witness for C7: pending entries 1 and 2; acknowledging ids 1 and 3
yields count 1, removes entry 1 and keeps entry 2. -/
theorem ackPOST_count_witness :
    (ackPOST ⟨5, [⟨1, "c1", 0⟩, ⟨2, "c1", 0⟩]⟩ [1, 3]).1 =
      (([1, 3] : List Nat).filter
        (fun i => [(⟨1, "c1", 0⟩ : PendingEntry), ⟨2, "c1", 0⟩].any
          (fun p => p.entryId == i))).length ∧
    (ackPOST ⟨5, [⟨1, "c1", 0⟩, ⟨2, "c1", 0⟩]⟩ [1, 3]).2.pending =
      [(⟨1, "c1", 0⟩ : PendingEntry), ⟨2, "c1", 0⟩].filter
        (fun p => !([1, 3] : List Nat).contains p.entryId) :=
  ackPOST_count ⟨5, [⟨1, "c1", 0⟩, ⟨2, "c1", 0⟩]⟩ [1, 3] (by decide)

/-- Claim C6: a stream entry delivered to consumer `c1` and never
acknowledged is returned again by a later consume call from a different
consumer `c2` once it has been pending longer than the idle threshold and
no new entries are available; the reclaim also reassigns the pending entry
to `c2`.  A delivered-but-unacknowledged entry is never silently lost. -/
theorem consume_reclaims_idle (st : StreamState) (c1 c2 : String) (count now : Nat)
    (e : PendingEntry) (tr : TransferM)
    (hpend : e ∈ st.group.pending)
    (hcons : e.consumer = c1) (hne : c2 ≠ c1)
    (hidle : e.deliveryTime + consumeMinIdle < now)
    (hnonew : ∀ en ∈ st.entries, en.1 ≤ st.group.lastDelivered)
    (hentry : (e.entryId, tr) ∈ st.entries)
    (hcount : st.group.pending.length ≤ count) :
    (e.entryId, tr) ∈ (consumeGET st c2 count now).1 ∧
    (⟨e.entryId, c2, now⟩ : PendingEntry) ∈ (consumeGET st c2 count now).2.group.pending := by
  have hfilter : st.entries.filter (fun en => decide (st.group.lastDelivered < en.1)) = [] := by
    rw [List.filter_eq_nil]
    intro en hen
    simp only [decide_eq_true_eq]
    exact Nat.not_lt.mpr (hnonew en hen)
  have hread : xreadgroup st c2 count now = ([], st) := by
    unfold xreadgroup
    rw [hfilter, List.take_nil]
  have hcg : consumeGET st c2 count now = xautoclaim st c2 consumeMinIdle count now := by
    unfold consumeGET
    rw [hread]
  rw [hcg]
  have hel : (st.group.pending.filter
      (fun p => decide (consumeMinIdle ≤ now - p.deliveryTime))).take count =
      st.group.pending.filter (fun p => decide (consumeMinIdle ≤ now - p.deliveryTime)) :=
    List.take_of_length_le (le_trans (List.length_filter_le _ _) hcount)
  have hemem : e ∈ st.group.pending.filter
      (fun p => decide (consumeMinIdle ≤ now - p.deliveryTime)) := by
    rw [List.mem_filter]
    refine ⟨hpend, ?_⟩
    simp only [decide_eq_true_eq]
    omega
  have hid : e.entryId ∈ (st.group.pending.filter
      (fun p => decide (consumeMinIdle ≤ now - p.deliveryTime))).map PendingEntry.entryId :=
    List.mem_map.mpr ⟨e, hemem, rfl⟩
  have hidc : ((st.group.pending.filter
      (fun p => decide (consumeMinIdle ≤ now - p.deliveryTime))).map
        PendingEntry.entryId).contains e.entryId = true := by
    simpa using hid
  unfold xautoclaim
  simp only [hel]
  constructor
  · rw [List.mem_filter]
    exact ⟨hentry, hidc⟩
  · apply List.mem_map.mpr
    refine ⟨e, hpend, ?_⟩
    rw [hidc]
    simp

/-- Witness for C6: one entry delivered to `c1` at time 0 and never
acknowledged is reclaimed by `c2` at time 20000. -/
theorem consume_reclaims_idle_witness :
    ((1 : Nat), (⟨105, "rx", "x", "alice", "1.000", "HBD", "TABLE 4", none⟩ : TransferM)) ∈
      (consumeGET ⟨[(1, ⟨105, "rx", "x", "alice", "1.000", "HBD", "TABLE 4", none⟩)],
        ⟨1, [⟨1, "c1", 0⟩]⟩⟩ "c2" 10 20000).1 ∧
    (⟨1, "c2", 20000⟩ : PendingEntry) ∈
      (consumeGET ⟨[(1, ⟨105, "rx", "x", "alice", "1.000", "HBD", "TABLE 4", none⟩)],
        ⟨1, [⟨1, "c1", 0⟩]⟩⟩ "c2" 10 20000).2.group.pending :=
  consume_reclaims_idle
    ⟨[(1, ⟨105, "rx", "x", "alice", "1.000", "HBD", "TABLE 4", none⟩)], ⟨1, [⟨1, "c1", 0⟩]⟩⟩
    "c1" "c2" 10 20000 ⟨1, "c1", 0⟩ ⟨105, "rx", "x", "alice", "1.000", "HBD", "TABLE 4", none⟩
    (by decide) (by decide) (by decide) (by decide)
    (by intro en hen; simp only [List.mem_singleton] at hen; subst hen; decide)
    (by decide) (by decide)

